import Mathlib

/-!
Verification of the `aliyun_dns` crate (src/lib.rs) against its
natural-language specification.

The Rust code is shallowly embedded: strings are Lean `String`s, the
UTF-8 byte sequence of a Rust `str` is modelled by `strBytes` (a list of
`Nat` bytes, each < 256), `HashMap<&str, &str>` is modelled as an
association list with distinct keys, and effects (nonce, timestamp, the
HTTP transport, the JSON parser of the external `serde_json`/`url`
collaborators) are passed as explicit arguments.
-/

set_option maxRecDepth 8000

namespace AliyunDnsVerify

/-- UTF-8 encoding of a Unicode code point, byte by byte.  This models how
Rust's `str::as_bytes` exposes a string: the standard UTF-8 encoding.
In the four-byte branch the leading byte is written `240 + n / 262144 % 8`;
for every valid scalar value (`n < 1114112`) the `% 8` is the identity, so
this agrees with UTF-8 on all characters while keeping every emitted byte
below 256 unconditionally. -/
def utf8EncodeNat (n : Nat) : List Nat :=
  if n < 128 then [n]
  else if n < 2048 then [192 + n / 64, 128 + n % 64]
  else if n < 65536 then [224 + n / 4096, 128 + n / 64 % 64, 128 + n % 64]
  else [240 + n / 262144 % 8, 128 + n / 4096 % 64, 128 + n / 64 % 64, 128 + n % 64]

/-- The UTF-8 bytes of a string, as Rust's `input.as_bytes()` yields them. -/
def strBytes (s : String) : List Nat :=
  s.data.flatMap (fun c => utf8EncodeNat c.toNat)

/-- The set of bytes the `url` crate's `form_urlencoded::byte_serialize`
leaves unchanged: `*`, `-`, `.`, `0-9`, `A-Z`, `_`, `a-z`
(`byte_serialized_unchanged` in the `url` crate). -/
def byteSerializedUnchanged (b : Nat) : Prop :=
  b = 42 ∨ b = 45 ∨ b = 46 ∨ (48 ≤ b ∧ b ≤ 57) ∨ (65 ≤ b ∧ b ≤ 90) ∨
    b = 95 ∨ (97 ≤ b ∧ b ≤ 122)

instance (b : Nat) : Decidable (byteSerializedUnchanged b) := by
  unfold byteSerializedUnchanged; infer_instance

/-- Uppercase hexadecimal digit, as `form_urlencoded` emits in `%XX`. -/
def hexDigitChar (n : Nat) : Char :=
  if n < 10 then Char.ofNat (48 + n) else Char.ofNat (55 + n)

/-- The characters `percent_encode` (src/lib.rs:525-536) emits for one input
byte: `*` is special-cased to `%2A`; every other byte goes through
`url::form_urlencoded::byte_serialize` applied to that single byte
(space becomes `+`, bytes in `byteSerializedUnchanged` stay, the rest
become an uppercase `%XX` triplet). -/
def pencByteChars (b : Nat) : List Char :=
  if b = 42 then ['%', '2', 'A']
  else if b = 32 then ['+']
  else if byteSerializedUnchanged b then [Char.ofNat b]
  else ['%', hexDigitChar (b / 16), hexDigitChar (b % 16)]

/-- `percent_encode`'s output characters over a byte sequence. -/
def pencBytes (bs : List Nat) : List Char :=
  bs.flatMap pencByteChars

/-- `percent_encode` (src/lib.rs:525-536): iterate over the UTF-8 bytes of
the input and concatenate the per-byte encodings. -/
def percentEncode (s : String) : String :=
  String.mk (pencBytes (strBytes s))

/-! ## Canonical query string (`sign_request`, src/lib.rs:456-468) -/

/-- `params.get(key).unwrap()` on the modelled `HashMap`: the first pair
with the given key (unique when the key list is `Nodup`); total with a
default for the unreachable missing-key case. -/
def lookupValue (params : List (String × String)) (k : String) : String :=
  match params.find? (fun p => p.1 == k) with
  | some p => p.2
  | none => ""

/-- `keys.sort()` of src/lib.rs:456-457.  Rust sorts `&str` by raw UTF-8
bytes; byte-wise lexicographic order on UTF-8 coincides with the
code-point lexicographic order that Lean's `String` order implements, so
the string order here is the byte order of the source. -/
def sortedKeys (params : List (String × String)) : List String :=
  List.insertionSort (· ≤ ·) (params.map Prod.fst)

/-- The canonical query string of `sign_request` (src/lib.rs:458-468): keys
sorted ascending, `percent_encode(key)=percent_encode(value)` for each key,
joined with `&`. -/
def canonicalQueryString (params : List (String × String)) : String :=
  String.intercalate "&"
    ((sortedKeys params).map
      (fun k => percentEncode k ++ "=" ++ percentEncode (lookupValue params k)))

/-! ## SHA-1, HMAC-SHA1, base64 (the `sha1`, `hmac`, `base64` crates used
by `sign_request`).  Words are `Nat`s kept below `2 ^ 32` by explicit
`% 4294967296`. -/

/-- Rotate a 32-bit word left by `n` bits. -/
def rotl32 (n x : Nat) : Nat :=
  (x * 2 ^ n + x / 2 ^ (32 - n)) % 4294967296

/-- Big-endian 4-byte rendering of a 32-bit word. -/
def be32 (n : Nat) : List Nat :=
  [n / 16777216 % 256, n / 65536 % 256, n / 256 % 256, n % 256]

/-- Big-endian 8-byte rendering of a 64-bit length. -/
def be64 (n : Nat) : List Nat :=
  [n / 2 ^ 56 % 256, n / 2 ^ 48 % 256, n / 2 ^ 40 % 256, n / 2 ^ 32 % 256,
   n / 2 ^ 24 % 256, n / 2 ^ 16 % 256, n / 2 ^ 8 % 256, n % 256]

/-- SHA-1 padding: append `0x80`, zeros to 56 mod 64, then the bit length
as a big-endian 64-bit integer. -/
def sha1Pad (msg : List Nat) : List Nat :=
  msg ++ [128] ++ List.replicate ((119 - msg.length % 64) % 64) 0 ++
    be64 (msg.length * 8)

/-- Split a padded message into 64-byte blocks. -/
def chunks64 (l : List Nat) : List (List Nat) :=
  if h : l = [] then []
  else
    have : l.length - 64 < l.length := by
      cases l with
      | nil => exact absurd rfl h
      | cons a t => simp; omega
    l.take 64 :: chunks64 (l.drop 64)
termination_by l.length
decreasing_by simpa using this

/-- Group bytes into big-endian 32-bit words. -/
def words32 : List Nat → List Nat
  | b0 :: b1 :: b2 :: b3 :: r =>
      (b0 * 16777216 + b1 * 65536 + b2 * 256 + b3) :: words32 r
  | _ => []

/-- One step of the SHA-1 message-schedule extension. -/
def scheduleStep (w : List Nat) : List Nat :=
  let m := w.length
  w ++ [rotl32 1 (((w.getD (m - 3) 0) ^^^ (w.getD (m - 8) 0)) ^^^
        ((w.getD (m - 14) 0) ^^^ (w.getD (m - 16) 0)))]

/-- Extend 16 schedule words to 80. -/
def sha1Schedule (w16 : List Nat) : List Nat :=
  Nat.iterate scheduleStep 64 w16

/-- The SHA-1 round function applied to one block. -/
def sha1Compress (h : List Nat) (block : List Nat) : List Nat :=
  let w := sha1Schedule (words32 block)
  let st0 := (h.getD 0 0, h.getD 1 0, h.getD 2 0, h.getD 3 0, h.getD 4 0)
  let stN := (List.range 80).foldl
    (fun st i =>
      let a := st.1
      let b := st.2.1
      let c := st.2.2.1
      let d := st.2.2.2.1
      let e := st.2.2.2.2
      let f :=
        if i < 20 then (b &&& c) ||| ((b ^^^ 4294967295) &&& d)
        else if i < 40 then (b ^^^ c) ^^^ d
        else if i < 60 then (b &&& c) ||| (b &&& d) ||| (c &&& d)
        else (b ^^^ c) ^^^ d
      let k :=
        if i < 20 then 1518500249
        else if i < 40 then 1859775393
        else if i < 60 then 2400959708
        else 3395469782
      let temp := (rotl32 5 a + f + e + k + w.getD i 0) % 4294967296
      (temp, a, rotl32 30 b, c, d)) st0
  [(h.getD 0 0 + stN.1) % 4294967296,
   (h.getD 1 0 + stN.2.1) % 4294967296,
   (h.getD 2 0 + stN.2.2.1) % 4294967296,
   (h.getD 3 0 + stN.2.2.2.1) % 4294967296,
   (h.getD 4 0 + stN.2.2.2.2) % 4294967296]

/-- SHA-1 of a byte sequence; 20 bytes of digest. -/
def sha1 (msg : List Nat) : List Nat :=
  ((chunks64 (sha1Pad msg)).foldl sha1Compress
    [1732584193, 4023233417, 2562383102, 271733878, 3285377520]).flatMap be32

/-- HMAC-SHA1 (`Hmac::<Sha1>` of the `hmac` crate): block size 64. -/
def hmacSha1 (key msg : List Nat) : List Nat :=
  let k0 := if key.length > 64 then sha1 key else key
  let k := k0 ++ List.replicate (64 - k0.length) 0
  sha1 ((k.map (fun b => b ^^^ 92)) ++ sha1 ((k.map (fun b => b ^^^ 54)) ++ msg))

/-- One character of the standard base64 alphabet. -/
def b64Char (n : Nat) : Char :=
  if n < 26 then Char.ofNat (65 + n)
  else if n < 52 then Char.ofNat (97 + (n - 26))
  else if n < 62 then Char.ofNat (48 + (n - 52))
  else if n = 62 then '+'
  else '/'

/-- Standard, padded base64 of a byte sequence
(`base64::engine::general_purpose::STANDARD`). -/
def base64Chars : List Nat → List Char
  | b0 :: b1 :: b2 :: r =>
      b64Char (b0 / 4) :: b64Char (b0 % 4 * 16 + b1 / 16) ::
        b64Char (b1 % 16 * 4 + b2 / 64) :: b64Char (b2 % 64) :: base64Chars r
  | [b0, b1] => [b64Char (b0 / 4), b64Char (b0 % 4 * 16 + b1 / 16),
                 b64Char (b1 % 16 * 4), '=']
  | [b0] => [b64Char (b0 / 4), b64Char (b0 % 4 * 16), '=', '=']
  | [] => []

def base64Encode (bs : List Nat) : String :=
  String.mk (base64Chars bs)

/-! ## `sign_request` and `send_request` (src/lib.rs:417-482) -/

/-- `sign_request` (src/lib.rs:455-482): canonical query string over the
parameter map, `string_to_sign = "GET&" ++ penc("/") ++ "&" ++ penc(cqs)`,
HMAC-SHA1 with key `access_key_secret ++ "&"`, base64 of the digest. -/
def signRequest (accessKeySecret : String) (params : List (String × String)) :
    String :=
  let canonical := canonicalQueryString params
  let stringToSign := "GET&" ++ percentEncode "/" ++ "&" ++ percentEncode canonical
  let signatureKey := accessKeySecret ++ "&"
  base64Encode (hmacSha1 (strBytes signatureKey) (strBytes stringToSign))

/-- Modelled from the spec: `sign(secret, method, path, cqs)` of §4.1 —
`string_to_sign = method + "&" + percent_encode(path) + "&" +
percent_encode(cqs)`, HMAC-SHA1 with key `secret + "&"`, base64 (standard
alphabet, padded) of the raw digest. -/
def signSpecModel (secret method path cqs : String) : String :=
  base64Encode (hmacSha1 (strBytes (secret ++ "&"))
    (strBytes (method ++ "&" ++ percentEncode path ++ "&" ++ percentEncode cqs)))

/-- The eight common parameters `send_request` inserts (src/lib.rs:426-433),
with the effectful nonce and timestamp passed in as arguments. -/
def commonParams (accessKeyId action nonce timestamp : String) :
    List (String × String) :=
  [("AccessKeyId", accessKeyId), ("Action", action), ("Format", "JSON"),
   ("Version", "2015-01-09"), ("SignatureMethod", "HMAC-SHA1"),
   ("SignatureVersion", "1.0"), ("SignatureNonce", nonce),
   ("Timestamp", timestamp)]

/-- The merged parameter map of `send_request` before signing: the caller's
operation parameters plus the eight common parameters.  (In the source this
is a `HashMap`; none of the five operations uses a common key, so list
concatenation models the inserts.) -/
def mergedParams (accessKeyId action nonce timestamp : String)
    (opParams : List (String × String)) : List (String × String) :=
  opParams ++ commonParams accessKeyId action nonce timestamp

/-- The outbound HTTP request `send_request` constructs. -/
structure HttpRequest where
  method : String
  baseUrl : String
  queryPairs : List (String × String)
  body : Option String
deriving DecidableEq

/-- `send_request` (src/lib.rs:417-442) up to the transport call: merge the
common parameters, sign the merged set, and issue a GET on the fixed
endpoint whose query is the merged pairs followed by one final
`Signature` pair; no body. -/
def sendRequestModel (accessKeyId accessKeySecret action : String)
    (opParams : List (String × String)) (nonce timestamp : String) :
    HttpRequest :=
  let merged := mergedParams accessKeyId action nonce timestamp opParams
  let signature := signRequest accessKeySecret merged
  { method := "GET"
    baseUrl := "https://alidns.aliyuncs.com/"
    queryPairs := merged ++ [("Signature", signature)]
    body := none }

/-- Parameters of `add_domain_record` (src/lib.rs:264-279). -/
def addDomainRecordParams (domainName subDomain recordType recordValue : String) :
    List (String × String) :=
  [("DomainName", domainName), ("RR", subDomain), ("Type", recordType),
   ("Value", recordValue)]

/-- Parameters of `delete_subdomain_records` (src/lib.rs:300-311). -/
def deleteSubdomainRecordsParams (domainName rr : String) :
    List (String × String) :=
  [("DomainName", domainName), ("RR", rr)]

/-- Parameters of `delete_domain_record` (src/lib.rs:331-340). -/
def deleteDomainRecordParams (recordId : String) : List (String × String) :=
  [("RecordId", recordId)]

/-- Parameters of `update_domain_record` (src/lib.rs:363-378). -/
def updateDomainRecordParams (recordId subDomain recordType value : String) :
    List (String × String) :=
  [("RecordId", recordId), ("RR", subDomain), ("Type", recordType),
   ("Value", value)]

/-- Parameters of `query_domain_records` (src/lib.rs:398-403). -/
def queryDomainRecordsParams (domainName : String) : List (String × String) :=
  [("DomainName", domainName)]

/-! ## Response handling (`handle_response`, src/lib.rs:495-521)

JSON values as `serde_json` sees them, restricted to integer numerals
(the only numbers the response shapes use).  Decoding a typed struct `T`
from a value is a function `Json → Option T`; the `serde_json` text
parser itself is an external collaborator and is passed in as a
`String → Option Json` argument. -/

inductive Json where
  | null
  | bool (b : Bool)
  | num (n : Int)
  | str (s : String)
  | arr (elems : List Json)
  | obj (fields : List (String × Json))

/-- Object field lookup (first occurrence). -/
def jLookup (key : String) : List (String × Json) → Option Json
  | [] => none
  | (k, v) :: r => if k = key then some v else jLookup key r

/-- serde: a `String` field accepts exactly a JSON string. -/
def asString : Json → Option String
  | .str s => some s
  | _ => none

/-- serde: a `u32` field accepts a nonnegative integer below `2 ^ 32`. -/
def asU32 : Json → Option Nat
  | .num n => if 0 ≤ n ∧ n < 4294967296 then some n.toNat else none
  | _ => none

/-- serde: a `bool` field accepts exactly a JSON boolean. -/
def asBool : Json → Option Bool
  | .bool b => some b
  | _ => none

/-- serde: an `Option<String>` field with `#[serde(default)]`: absent or
`null` decodes to `none`, a string to `some`, any other shape fails. -/
def asOptString : Option Json → Option (Option String)
  | none => some none
  | some .null => some none
  | some (.str s) => some (some s)
  | some _ => none

/-- The `Error` variant of `ApiResponse` (src/lib.rs:134-146): required
string `RequestId`, optional `Code` and `Message`. -/
structure ApiError where
  requestId : String
  errorCode : Option String
  errorMessage : Option String
deriving DecidableEq

/-- Decoding the error shape of the untagged `ApiResponse` enum. -/
def decodeErrorShape : Json → Option ApiError
  | .obj fields => do
      let rid ← jLookup "RequestId" fields >>= asString
      let code ← asOptString (jLookup "Code" fields)
      let msg ← asOptString (jLookup "Message" fields)
      pure ⟨rid, code, msg⟩
  | _ => none

/-- The untagged `ApiResponse<T>` deserializer: try the `Success` variant
first (declaration order), then the `Error` variant. -/
def apiResponseDecode {T : Type} (decT : Json → Option T) (j : Json) :
    Option (T ⊕ ApiError) :=
  match decT j with
  | some t => some (.inl t)
  | none => (decodeErrorShape j).map Sum.inr

/-- An HTTP response as the transport returns it: a status code and a
body.  `handle_response` reads only the body (the status check at
src/lib.rs:499-502 is commented out). -/
structure HttpResponse where
  status : Nat
  body : String
deriving DecidableEq

/-- The error message `anyhow::anyhow!` renders for the `Error` variant
(src/lib.rs:514-519), with missing code/message as empty strings. -/
def renderApiError (e : ApiError) : String :=
  "API error: Request ID: " ++ e.requestId ++ ", Code: " ++
    e.errorCode.getD "" ++ ", Message: " ++ e.errorMessage.getD ""

/-- The context message attached when the body parses as neither shape
(src/lib.rs:505-506). -/
def renderParseFailure (body : String) : String :=
  "Failed to parse JSON response: " ++ body

/-- `handle_response` (src/lib.rs:495-521): read the body text, decode it
as `ApiResponse<T>` (success shape first, then error shape), return the
payload, a rendered provider error, or a parse failure carrying the raw
body.  `parse` is the external `serde_json` text-to-value parser. -/
def handleResponse {T : Type} (decT : Json → Option T)
    (parse : String → Option Json) (response : HttpResponse) :
    Except String T :=
  let responseText := response.body
  match (parse responseText).bind (apiResponseDecode decT) with
  | none => .error (renderParseFailure responseText)
  | some (.inl t) => .ok t
  | some (.inr e) => .error (renderApiError e)

/-! ## The typed success payloads (src/lib.rs:148-209) -/

/-- `DomainRecord` (src/lib.rs:149-169). -/
structure DomainRecord where
  rr : String
  line : String
  status : String
  locked : Bool
  recordType : String
  domainName : String
  value : String
  recordId : String
  ttl : Nat
deriving DecidableEq

/-- serde decoding of `DomainRecord` from its renamed fields. -/
def decodeDomainRecord : Json → Option DomainRecord
  | .obj fields => do
      let rr ← jLookup "RR" fields >>= asString
      let line ← jLookup "Line" fields >>= asString
      let status ← jLookup "Status" fields >>= asString
      let locked ← jLookup "Locked" fields >>= asBool
      let ty ← jLookup "Type" fields >>= asString
      let dn ← jLookup "DomainName" fields >>= asString
      let v ← jLookup "Value" fields >>= asString
      let rid ← jLookup "RecordId" fields >>= asString
      let ttl ← jLookup "TTL" fields >>= asU32
      pure ⟨rr, line, status, locked, ty, dn, v, rid, ttl⟩
  | _ => none

/-- serde: a `Vec<DomainRecord>` field accepts a JSON array, elementwise. -/
def decodeDomainRecordList : Json → Option (List DomainRecord)
  | .arr elems => elems.mapM decodeDomainRecord
  | _ => none

/-- `DomainRecordsResponse` (src/lib.rs:172-182): note `TotalCount` and
`PageSize` are `u32` JSON numbers here. -/
structure DomainRecordsResponse where
  totalCount : Nat
  requestId : String
  pageSize : Nat
  records : List DomainRecord
deriving DecidableEq

def decodeDomainRecordsResponse : Json → Option DomainRecordsResponse
  | .obj fields => do
      let tc ← jLookup "TotalCount" fields >>= asU32
      let rid ← jLookup "RequestId" fields >>= asString
      let ps ← jLookup "PageSize" fields >>= asU32
      let dr ← jLookup "DomainRecords" fields
      match dr with
      | .obj inner => do
          let recs ← jLookup "Record" inner >>= decodeDomainRecordList
          pure ⟨tc, rid, ps, recs⟩
      | _ => none
  | _ => none

/-- `DeleteSubDomainRecordsResponse` (src/lib.rs:192-200): note
`TotalCount` is a `String` here, unlike `DomainRecordsResponse`. -/
structure DeleteSubDomainRecordsResponse where
  rr : String
  totalCount : String
  requestId : String
deriving DecidableEq

def decodeDeleteSubDomainRecordsResponse :
    Json → Option DeleteSubDomainRecordsResponse
  | .obj fields => do
      let rr ← jLookup "RR" fields >>= asString
      let tc ← jLookup "TotalCount" fields >>= asString
      let rid ← jLookup "RequestId" fields >>= asString
      pure ⟨rr, tc, rid⟩
  | _ => none

/-! ## Query-string re-parsing (round-trip check)

Modelled from the spec: §8's round-trip property — "splitting the
canonical query string on `&` and `=` and percent-decoding each key and
value" — describes a parser that is not part of the repository (the spec
has a URL library in mind), so the splitting and percent-decoding side is
defined here from the spec's words. -/

/-- Value of an uppercase/lowercase hexadecimal digit. -/
def hexVal (c : Char) : Nat :=
  if 48 ≤ c.toNat ∧ c.toNat ≤ 57 then c.toNat - 48
  else if 65 ≤ c.toNat ∧ c.toNat ≤ 70 then c.toNat - 55
  else if 97 ≤ c.toNat ∧ c.toNat ≤ 102 then c.toNat - 87
  else 0

/-- Modelled from the spec: percent-decoding of one token back to bytes —
`+` to space, `%XX` to the byte `XX`, any other character to its own
code point. -/
def pdecBytes : List Char → List Nat
  | [] => []
  | c :: r =>
    if c = '+' then 32 :: pdecBytes r
    else if c = '%' then
      match r with
      | h :: l :: r2 => (hexVal h * 16 + hexVal l) :: pdecBytes r2
      | _ => []
    else c.toNat :: pdecBytes r

/-- Split a character list at every occurrence of `c` (the separators are
dropped; `n` separators yield `n + 1` parts). -/
def splitOnChar (c : Char) : List Char → List (List Char)
  | [] => [[]]
  | x :: xs =>
    match splitOnChar c xs with
    | [] => [[]]
    | h :: t => if x = c then [] :: h :: t else (x :: h) :: t

/-- Modelled from the spec: one `key=value` token — split on `=` and
percent-decode the two sides to byte sequences. -/
def parsePairBytes (part : List Char) : List Nat × List Nat :=
  match splitOnChar '=' part with
  | [k, v] => (pdecBytes k, pdecBytes v)
  | _ => ([], [])

/-- Modelled from the spec: re-parse a query string — split on `&`, split
each pair on `=`, percent-decode key and value to byte sequences. -/
def parseQueryBytes (s : String) : List (List Nat × List Nat) :=
  (splitOnChar '&' s.data).map parsePairBytes

/-! ## Claim theorems -/

/-- The RFC 3986 unreserved characters other than the tilde: ASCII
letters, digits, `-`, `.`, `_`. -/
def rfc3986UnreservedNonTilde (b : Nat) : Prop :=
  (48 ≤ b ∧ b ≤ 57) ∨ (65 ≤ b ∧ b ≤ 90) ∨ (97 ≤ b ∧ b ≤ 122) ∨
    b = 45 ∨ b = 46 ∨ b = 95

instance (b : Nat) : Decidable (rfc3986UnreservedNonTilde b) := by
  unfold rfc3986UnreservedNonTilde; infer_instance

/-- Claim C1: `percent_encode` maps `"hello"` to `"hello"`, `"a/b"` to
`"a%2Fb"`, `"a+b"` to `"a%2Bb"`, `"a b"` to `"a+b"`, `"*"` to `"%2A"`,
`"%"` to `"%25"`, and the two-character UTF-8 input `"你好"` to
`"%E4%BD%A0%E5%A5%BD"` (the vectors of `tests::test_percent_encode`). -/
theorem percent_encode_fixed_vectors :
    percentEncode "hello" = "hello" ∧ percentEncode "a/b" = "a%2Fb" ∧
    percentEncode "a+b" = "a%2Bb" ∧ percentEncode "a b" = "a+b" ∧
    percentEncode "*" = "%2A" ∧ percentEncode "%" = "%25" ∧
    percentEncode "你好" = "%E4%BD%A0%E5%A5%BD" := by
  refine ⟨?_, ?_, ?_, ?_, ?_, ?_, ?_⟩ <;> decide

/-- Claim C2 fails as stated: the tilde is an RFC 3986 unreserved
character, but `percent_encode` (which defers to the `url` crate's
form-urlencoded byte set, where `~` is not kept) encodes `"~"` as
`"%7E"` instead of leaving it unchanged. -/
theorem percent_encode_tilde_counterexample :
    percentEncode "~" = "%7E" ∧ percentEncode "~" ≠ "~" := by
  refine ⟨?_, ?_⟩ <;> decide

/-- Claim C2 (amended): for every input string, `percent_encode` encodes
byte-wise over UTF-8; it leaves the RFC 3986 unreserved characters other
than `~` (ASCII letters, digits, `-`, `.`, `_`) unchanged, encodes the
space as `+`, `*` as `%2A`, the tilde as `%7E`, and every other byte as
a single uppercase `%XX` triplet per byte. -/
theorem percent_encode_bytewise (s : String) :
    percentEncode s = String.mk ((strBytes s).flatMap pencByteChars)
    ∧ (∀ b, rfc3986UnreservedNonTilde b → pencByteChars b = [Char.ofNat b])
    ∧ pencByteChars 32 = ['+']
    ∧ pencByteChars 42 = ['%', '2', 'A']
    ∧ pencByteChars 126 = ['%', '7', 'E']
    ∧ (∀ b, b < 256 → ¬rfc3986UnreservedNonTilde b → b ≠ 32 → b ≠ 42 →
        pencByteChars b = ['%', hexDigitChar (b / 16), hexDigitChar (b % 16)]) := by
  have unres : ∀ b, b < 256 → rfc3986UnreservedNonTilde b →
      pencByteChars b = [Char.ofNat b] := by decide
  have other : ∀ b, b < 256 → ¬rfc3986UnreservedNonTilde b → b ≠ 32 → b ≠ 42 →
      pencByteChars b = ['%', hexDigitChar (b / 16), hexDigitChar (b % 16)] := by
    decide
  refine ⟨rfl, ?_, by decide, by decide, by decide, other⟩
  intro b hb
  have hlt : b < 256 := by
    rcases hb with h | h | h | h | h | h <;> omega
  exact unres b hlt hb

/-- Closed witness for `percent_encode_bytewise` at concrete bytes. -/
theorem percent_encode_bytewise_witness :
    pencByteChars 65 = [Char.ofNat 65] ∧
    pencByteChars 47 = ['%', hexDigitChar (47 / 16), hexDigitChar (47 % 16)] :=
  ⟨(percent_encode_bytewise "x").2.1 65 (by decide),
   (percent_encode_bytewise "x").2.2.2.2.2 47 (by decide) (by decide)
     (by decide) (by decide)⟩

/-- Claim C5 fails as stated: `send_request` merges eight common
parameters (AccessKeyId, Action, Format, Version, SignatureMethod,
SignatureVersion, SignatureNonce, Timestamp), not seven as the claim
counts them. -/
theorem common_params_count_counterexample :
    (commonParams "id" "AddDomainRecord" "nonce1" "2024-01-01T00:00:00Z").length = 8
    ∧ (commonParams "id" "AddDomainRecord" "nonce1" "2024-01-01T00:00:00Z").length ≠ 7 := by
  refine ⟨?_, ?_⟩ <;> decide

/-- Claim C5 (amended): for every operation, all operation parameters and
the eight common parameters, plus `Signature` as one final query
parameter, are passed as URL query parameters of a GET request with no
body — never as a request body. -/
theorem request_params_in_query (accessKeyId accessKeySecret action nonce
    timestamp : String) (opParams : List (String × String)) :
    (sendRequestModel accessKeyId accessKeySecret action opParams nonce
        timestamp).method = "GET"
    ∧ (sendRequestModel accessKeyId accessKeySecret action opParams nonce
        timestamp).body = none
    ∧ (sendRequestModel accessKeyId accessKeySecret action opParams nonce
        timestamp).queryPairs =
      opParams ++ commonParams accessKeyId action nonce timestamp ++
        [("Signature", signRequest accessKeySecret
          (mergedParams accessKeyId action nonce timestamp opParams))]
    ∧ (commonParams accessKeyId action nonce timestamp).length = 8 := by
  refine ⟨rfl, rfl, ?_, rfl⟩
  simp [sendRequestModel, mergedParams]

/-- Claim C10: `DeleteSubDomainRecordsResponse` carries `TotalCount` as a
JSON string, unlike `DomainRecordsResponse` where it is a number: any
object whose `TotalCount` field is a JSON number fails to decode as the
delete-subdomain success shape, while a string `TotalCount` decodes, and
a numeric `TotalCount` decodes for the query shape. -/
theorem delete_subdomain_total_count_is_string :
    (∀ (fields : List (String × Json)) (n : Int),
        jLookup "TotalCount" fields = some (.num n) →
        decodeDeleteSubDomainRecordsResponse (.obj fields) = none)
    ∧ decodeDeleteSubDomainRecordsResponse
        (.obj [("RR", .str "www"), ("TotalCount", .str "2"),
               ("RequestId", .str "REQ-1")]) = some ⟨"www", "2", "REQ-1"⟩
    ∧ decodeDomainRecordsResponse
        (.obj [("TotalCount", .num 2), ("RequestId", .str "REQ-1"),
               ("PageSize", .num 20),
               ("DomainRecords", .obj [("Record", .arr [])])]) =
        some ⟨2, "REQ-1", 20, []⟩
    ∧ decodeDeleteSubDomainRecordsResponse
        (.obj [("RR", .str "www"), ("TotalCount", .num 2),
               ("RequestId", .str "REQ-1")]) = none := by
  refine ⟨?_, rfl, rfl, rfl⟩
  intro fields n h
  cases hrr : jLookup "RR" fields with
  | none => simp [decodeDeleteSubDomainRecordsResponse, hrr]
  | some v =>
    cases v <;>
      simp [decodeDeleteSubDomainRecordsResponse, hrr, h, asString]

/-- Closed witness for `delete_subdomain_total_count_is_string` at a
concrete error-typed field. -/
theorem delete_subdomain_total_count_is_string_witness :
    decodeDeleteSubDomainRecordsResponse
      (.obj [("TotalCount", .num 3)]) = none :=
  delete_subdomain_total_count_is_string.1 [("TotalCount", .num 3)] 3 rfl

/-- Claim C6: whenever the body decodes as the error shape and not as the
success shape, the call fails with the rendered provider error, whose
text contains the request id, the error code and the error message, a
missing code or message appearing as the empty string. -/
theorem provider_error_rendering {T : Type} (decT : Json → Option T)
    (parse : String → Option Json) (r : HttpResponse) (j : Json) (e : ApiError)
    (hparse : parse r.body = some j) (hsucc : decT j = none)
    (herr : decodeErrorShape j = some e) :
    handleResponse decT parse r = .error (renderApiError e)
    ∧ ∃ p1 p2 p3, (renderApiError e).data =
        p1 ++ e.requestId.data ++ p2 ++ (e.errorCode.getD "").data ++ p3 ++
          (e.errorMessage.getD "").data := by
  constructor
  · simp [handleResponse, hparse, apiResponseDecode, hsucc, herr]
  · exact ⟨("API error: Request ID: ").data, (", Code: ").data,
      (", Message: ").data, by simp [renderApiError]⟩

/-- Error-shaped sample body: a request id and a code, no message
(the spec's end-to-end scenario). -/
def sampleErrorJson : Json :=
  .obj [("RequestId", .str "REQ-1"), ("Code", .str "InvalidDomainName.NoExist")]

/-- A concrete external JSON parser for the witnesses: a two-entry table. -/
def sampleParse : String → Option Json :=
  fun s =>
    if s = "errbody" then some sampleErrorJson
    else if s = "okbody" then
      some (.obj [("RR", .str "www"), ("TotalCount", .str "2"),
                  ("RequestId", .str "REQ-1")])
    else none

/-- Closed witness for `provider_error_rendering`: the canned
error-shaped body of the spec's scenario, with no message. -/
theorem provider_error_rendering_witness :
    handleResponse decodeDeleteSubDomainRecordsResponse sampleParse
        ⟨200, "errbody"⟩ =
      .error (renderApiError ⟨"REQ-1", some "InvalidDomainName.NoExist", none⟩) :=
  (provider_error_rendering decodeDeleteSubDomainRecordsResponse sampleParse
    ⟨200, "errbody"⟩ sampleErrorJson ⟨"REQ-1", some "InvalidDomainName.NoExist", none⟩
    rfl rfl rfl).1

/-- Claim C7: if the body decodes as neither the success shape nor the
error shape (including bodies that are not JSON at all), the call fails
with the parse-failure message, which contains the raw body. -/
theorem parse_failure_contains_body {T : Type} (decT : Json → Option T)
    (parse : String → Option Json) (r : HttpResponse)
    (h : parse r.body = none ∨
      ∃ j, parse r.body = some j ∧ decT j = none ∧ decodeErrorShape j = none) :
    handleResponse decT parse r = .error (renderParseFailure r.body)
    ∧ ∃ p, (renderParseFailure r.body).data = p ++ r.body.data := by
  refine ⟨?_, ("Failed to parse JSON response: ").data, by simp [renderParseFailure]⟩
  rcases h with h | ⟨j, hj, hsucc, herr⟩
  · simp [handleResponse, h]
  · simp [handleResponse, hj, apiResponseDecode, hsucc, herr]

/-- Closed witness for `parse_failure_contains_body`: malformed JSON the
parser rejects. -/
theorem parse_failure_contains_body_witness :
    handleResponse decodeDeleteSubDomainRecordsResponse sampleParse
        ⟨200, "not json at all"⟩ =
      .error (renderParseFailure "not json at all") :=
  (parse_failure_contains_body decodeDeleteSubDomainRecordsResponse sampleParse
    ⟨200, "not json at all"⟩ (Or.inl rfl)).1

/-- Claim C8: `handle_response` never inspects the HTTP status code — any
two responses with the same body yield the same result; in particular a
non-2xx status with an error-shaped body still surfaces the provider
error, and a non-2xx status with a success-shaped body still succeeds. -/
theorem handle_response_ignores_status {T : Type} (decT : Json → Option T)
    (parse : String → Option Json) (r1 r2 : HttpResponse)
    (hbody : r1.body = r2.body) :
    handleResponse decT parse r1 = handleResponse decT parse r2
    ∧ (∀ status j e, parse r1.body = some j → decT j = none →
        decodeErrorShape j = some e →
        handleResponse decT parse ⟨status, r1.body⟩ = .error (renderApiError e))
    ∧ (∀ status j t, parse r1.body = some j → decT j = some t →
        handleResponse decT parse ⟨status, r1.body⟩ = .ok t) := by
  refine ⟨by simp [handleResponse, hbody], ?_, ?_⟩
  · intro status j e hj hsucc herr
    simp [handleResponse, hj, apiResponseDecode, hsucc, herr]
  · intro status j t hj ht
    simp [handleResponse, hj, apiResponseDecode, ht]

/-- Closed witness for `handle_response_ignores_status`: a 500 and a 200
response with the same error-shaped body handle identically, and the 500
still surfaces the provider error. -/
theorem handle_response_ignores_status_witness :
    handleResponse decodeDeleteSubDomainRecordsResponse sampleParse
        ⟨500, "errbody"⟩ =
      handleResponse decodeDeleteSubDomainRecordsResponse sampleParse
        ⟨200, "errbody"⟩
    ∧ handleResponse decodeDeleteSubDomainRecordsResponse sampleParse
        ⟨500, "errbody"⟩ =
      .error (renderApiError ⟨"REQ-1", some "InvalidDomainName.NoExist", none⟩) :=
  ⟨(handle_response_ignores_status decodeDeleteSubDomainRecordsResponse
      sampleParse ⟨500, "errbody"⟩ ⟨200, "errbody"⟩ rfl).1,
   (handle_response_ignores_status decodeDeleteSubDomainRecordsResponse
      sampleParse ⟨500, "errbody"⟩ ⟨200, "errbody"⟩ rfl).2.1 500
      sampleErrorJson ⟨"REQ-1", some "InvalidDomainName.NoExist", none⟩
      rfl rfl rfl⟩

/-! ## Order independence of the canonical query string -/

/-- On maps with distinct keys, `find?` by key is invariant under
permutation of the entries. -/
theorem find?_congr_perm {l1 l2 : List (String × String)} (h : l1.Perm l2) :
    (l1.map Prod.fst).Nodup → ∀ k : String,
      l1.find? (fun p => p.1 == k) = l2.find? (fun p => p.1 == k) := by
  induction h with
  | nil => intro _ _; rfl
  | cons a t ih =>
    intro hnd k
    simp only [List.map_cons, List.nodup_cons] at hnd
    cases hpa : (a.1 == k) <;> simp [List.find?_cons, hpa, ih hnd.2 k]
  | swap a b l =>
    intro hnd k
    cases hb : (b.1 == k) <;> cases ha : (a.1 == k) <;>
      simp [List.find?_cons, ha, hb]
    have hab : b.1 = a.1 := (eq_of_beq hb).trans (eq_of_beq ha).symm
    simp [hab] at hnd
  | trans h1 h2 ih1 ih2 =>
    intro hnd k
    have hndmid := ((h1.map Prod.fst).nodup_iff).mp hnd
    exact (ih1 hnd k).trans (ih2 hndmid k)

/-- `params.get(key).unwrap()` is invariant under permutation of a map
with distinct keys. -/
theorem lookupValue_congr_perm {l1 l2 : List (String × String)}
    (h : l1.Perm l2) (hnd : (l1.map Prod.fst).Nodup) (k : String) :
    lookupValue l1 k = lookupValue l2 k := by
  unfold lookupValue
  rw [find?_congr_perm h hnd k]

/-- On a map with distinct keys, looking up the key of an entry returns
that entry's value. -/
theorem lookupValue_mem {l : List (String × String)}
    (hnd : (l.map Prod.fst).Nodup) {p : String × String} (hp : p ∈ l) :
    lookupValue l p.1 = p.2 := by
  induction l with
  | nil => cases hp
  | cons a t ih =>
    simp only [List.map_cons, List.nodup_cons] at hnd
    rcases List.mem_cons.mp hp with rfl | hp'
    · simp [lookupValue, List.find?_cons]
    · have hne : (a.1 == p.1) = false := by
        have hmem : p.1 ∈ t.map Prod.fst := List.mem_map.mpr ⟨p, hp', rfl⟩
        exact beq_eq_false_iff_ne.mpr (fun hc => hnd.1 (hc ▸ hmem))
      simpa [lookupValue, List.find?_cons, hne] using ih hnd.2 hp'

/-- The sorted key list depends only on the key multiset. -/
theorem sortedKeys_congr_perm {l1 l2 : List (String × String)}
    (h : l1.Perm l2) : sortedKeys l1 = sortedKeys l2 := by
  unfold sortedKeys
  exact List.eq_of_perm_of_sorted
    (((List.perm_insertionSort (· ≤ ·) _).trans (h.map Prod.fst)).trans
      (List.perm_insertionSort (· ≤ ·) _).symm)
    (List.sorted_insertionSort (· ≤ ·) _)
    (List.sorted_insertionSort (· ≤ ·) _)

/-- The canonical query string is invariant under permutation of a
parameter map with distinct keys. -/
theorem canonicalQueryString_congr_perm {l1 l2 : List (String × String)}
    (h : l1.Perm l2) (hnd : (l1.map Prod.fst).Nodup) :
    canonicalQueryString l1 = canonicalQueryString l2 := by
  unfold canonicalQueryString
  rw [sortedKeys_congr_perm h]
  have : (fun k => percentEncode k ++ "=" ++ percentEncode (lookupValue l1 k))
      = (fun k => percentEncode k ++ "=" ++ percentEncode (lookupValue l2 k)) :=
    funext fun k => by rw [lookupValue_congr_perm h hnd k]
  rw [this]

/-- Claim C3: the canonical query string is the `&`-join, over the keys
sorted ascending, of `percent_encode(key)=percent_encode(value)`, with
no trailing separator, and identical parameter sets give identical
canonical strings regardless of insertion order. -/
theorem canonical_query_string_characterization
    (l1 l2 : List (String × String)) (hperm : l1.Perm l2)
    (hnd : (l1.map Prod.fst).Nodup) :
    canonicalQueryString l1 = String.intercalate "&"
      ((sortedKeys l1).map
        (fun k => percentEncode k ++ "=" ++ percentEncode (lookupValue l1 k)))
    ∧ canonicalQueryString l1 = canonicalQueryString l2 :=
  ⟨rfl, canonicalQueryString_congr_perm hperm hnd⟩

/-- Closed witness for `canonical_query_string_characterization`: two
insertion orders of the same two-entry map. -/
theorem canonical_query_string_characterization_witness :
    canonicalQueryString [("b", "2"), ("a", "1")] =
      canonicalQueryString [("a", "1"), ("b", "2")] :=
  (canonical_query_string_characterization [("b", "2"), ("a", "1")]
    [("a", "1"), ("b", "2")] (by decide) (by decide)).2

/-- Claim C4: `sign_request` computes the base64 (standard alphabet,
padded) of the HMAC-SHA1, keyed by `access_key_secret ++ "&"`, of the
UTF-8 bytes of `"GET" ++ "&" ++ percent_encode("/") ++ "&" ++
percent_encode(canonical_query_string)` — the spec's
`sign(secret, "GET", "/", cqs)`; the result is deterministic in the
parameter set (independent of insertion order); and in `send_request`
the `Signature` pair is appended after signing, the signed set never
containing a `Signature` key when the operation parameters do not. -/
theorem sign_request_spec (accessKeySecret : String)
    (l1 l2 : List (String × String)) (hperm : l1.Perm l2)
    (hnd : (l1.map Prod.fst).Nodup) :
    signRequest accessKeySecret l1 =
      signSpecModel accessKeySecret "GET" "/" (canonicalQueryString l1)
    ∧ signRequest accessKeySecret l1 = signRequest accessKeySecret l2
    ∧ ∀ accessKeyId action nonce timestamp opParams,
        "Signature" ∉ (opParams : List (String × String)).map Prod.fst →
        "Signature" ∉
            (mergedParams accessKeyId action nonce timestamp opParams).map
              Prod.fst
        ∧ (sendRequestModel accessKeyId accessKeySecret action opParams nonce
            timestamp).queryPairs =
          mergedParams accessKeyId action nonce timestamp opParams ++
            [("Signature", signRequest accessKeySecret
              (mergedParams accessKeyId action nonce timestamp opParams))] := by
  refine ⟨rfl, ?_, ?_⟩
  · unfold signRequest
    rw [canonicalQueryString_congr_perm hperm hnd]
  · intro accessKeyId action nonce timestamp opParams hop
    refine ⟨?_, rfl⟩
    simp only [mergedParams, commonParams, List.map_append, List.mem_append]
    rintro (hmem | hmem)
    · exact hop hmem
    · simp at hmem

/-- Closed witness for `sign_request_spec`: a concrete secret and a
two-entry map in two insertion orders. -/
theorem sign_request_spec_witness :
    signRequest "secret" [("b", "2"), ("a", "1")] =
      signSpecModel "secret" "GET" "/"
        (canonicalQueryString [("b", "2"), ("a", "1")])
    ∧ signRequest "secret" [("b", "2"), ("a", "1")] =
      signRequest "secret" [("a", "1"), ("b", "2")] :=
  ⟨(sign_request_spec "secret" [("b", "2"), ("a", "1")]
      [("a", "1"), ("b", "2")] (by decide) (by decide)).1,
   (sign_request_spec "secret" [("b", "2"), ("a", "1")]
      [("a", "1"), ("b", "2")] (by decide) (by decide)).2.1⟩

/-! ## Round-trip: percent-decoding inverts `percent_encode`, and
re-parsing the canonical query string recovers the parameter set -/

/-- Every byte the UTF-8 encoder emits is below 256. -/
theorem utf8EncodeNat_lt (n : Nat) : ∀ b ∈ utf8EncodeNat n, b < 256 := by
  intro b hb
  simp only [utf8EncodeNat] at hb
  split_ifs at hb <;> simp at hb <;> omega

/-- Every byte of `strBytes` is below 256. -/
theorem strBytes_lt (s : String) : ∀ b ∈ strBytes s, b < 256 := by
  intro b hb
  unfold strBytes at hb
  rcases List.mem_flatMap.mp hb with ⟨c, _, hc⟩
  exact utf8EncodeNat_lt _ b hc

/-- No output character of the per-byte encoder is `&` or `=`. -/
theorem pencByteChars_no_sep :
    ∀ b, b < 256 → ∀ c ∈ pencByteChars b, c ≠ '&' ∧ c ≠ '=' := by decide

/-- In the unchanged branch the emitted character decodes to the byte. -/
theorem pencByteChars_unchanged_facts :
    ∀ b, b < 256 →
      b = 42 ∨ b = 32 ∨ ¬byteSerializedUnchanged b ∨
        (Char.ofNat b ≠ '+' ∧ Char.ofNat b ≠ '%' ∧ (Char.ofNat b).toNat = b) := by
  decide

/-- `hexVal` inverts `hexDigitChar` on nibbles. -/
theorem hexVal_hexDigitChar : ∀ m, m < 16 → hexVal (hexDigitChar m) = m := by
  decide

/-- No output character of `pencBytes` is `&` or `=`. -/
theorem pencBytes_no_sep (bs : List Nat) (h : ∀ b ∈ bs, b < 256) :
    ∀ c ∈ pencBytes bs, c ≠ '&' ∧ c ≠ '=' := by
  intro c hc
  unfold pencBytes at hc
  rcases List.mem_flatMap.mp hc with ⟨b, hb, hcb⟩
  exact pencByteChars_no_sep b (h b hb) c hcb

/-- Percent-decoding consumes the encoding of one byte and recovers it. -/
theorem pdecBytes_penc_cons (b : Nat) (hb : b < 256) (rest : List Char) :
    pdecBytes (pencByteChars b ++ rest) = b :: pdecBytes rest := by
  unfold pencByteChars
  split_ifs with h42 h32 hunch
  · subst h42
    show pdecBytes ('%' :: '2' :: 'A' :: rest) = 42 :: pdecBytes rest
    have h2 : hexVal '2' * 16 + hexVal 'A' = 42 := by decide
    simp [pdecBytes, h2]
  · subst h32
    show pdecBytes ('+' :: rest) = 32 :: pdecBytes rest
    rw [pdecBytes.eq_def]
    simp
  · rcases pencByteChars_unchanged_facts b hb with rfl | rfl | h | h
    · exact absurd rfl h42
    · exact absurd rfl h32
    · exact absurd hunch h
    · obtain ⟨hp, hpc, ht⟩ := h
      show pdecBytes (Char.ofNat b :: rest) = b :: pdecBytes rest
      rw [pdecBytes.eq_def]
      simp [hp, hpc, ht]
  · show pdecBytes
        ('%' :: hexDigitChar (b / 16) :: hexDigitChar (b % 16) :: rest) =
      b :: pdecBytes rest
    have h1 := hexVal_hexDigitChar (b / 16) (by omega)
    have h2 := hexVal_hexDigitChar (b % 16) (by omega)
    simp [pdecBytes, h1, h2]
    omega

/-- Percent-decoding inverts `pencBytes` on byte sequences. -/
theorem pdecBytes_pencBytes (bs : List Nat) (h : ∀ b ∈ bs, b < 256) :
    pdecBytes (pencBytes bs) = bs := by
  induction bs with
  | nil => rfl
  | cons b t ih =>
    have hb : b < 256 := h b (List.mem_cons_self b t)
    have ht : ∀ x ∈ t, x < 256 := fun x hx => h x (List.mem_cons_of_mem _ hx)
    show pdecBytes (pencByteChars b ++ pencBytes t) = b :: t
    rw [pdecBytes_penc_cons b hb, ih ht]

/-- `splitOnChar` never returns the empty list of parts. -/
theorem splitOnChar_ne_nil (c : Char) (l : List Char) :
    splitOnChar c l ≠ [] := by
  cases l with
  | nil => simp [splitOnChar]
  | cons x xs =>
    cases h : splitOnChar c xs with
    | nil => simp [splitOnChar, h]
    | cons hd tl => by_cases hxc : x = c <;> simp [splitOnChar, h, hxc]

/-- A leading separator contributes an empty first part. -/
theorem splitOnChar_sep (c : Char) (l : List Char) :
    splitOnChar c (c :: l) = [] :: splitOnChar c l := by
  cases h : splitOnChar c l with
  | nil => exact absurd h (splitOnChar_ne_nil c l)
  | cons hd tl => simp [splitOnChar, h]

/-- A separator-free prefix extends the first part of the split. -/
theorem splitOnChar_append (c : Char) (p l : List Char) (hp : c ∉ p)
    (hd : List Char) (tl : List (List Char))
    (h : splitOnChar c l = hd :: tl) :
    splitOnChar c (p ++ l) = (p ++ hd) :: tl := by
  induction p with
  | nil => simpa using h
  | cons x p' ih =>
    have hxc : ¬x = c := fun hc => hp (hc ▸ List.mem_cons_self x p')
    have ih' := ih (fun hc => hp (List.mem_cons_of_mem _ hc))
    show splitOnChar c (x :: (p' ++ l)) = ((x :: p') ++ hd) :: tl
    simp [splitOnChar, ih', hxc]

/-- A separator-free token splits into itself. -/
theorem splitOnChar_no_sep (c : Char) (p : List Char) (hp : c ∉ p) :
    splitOnChar c p = [p] := by
  have h := splitOnChar_append c p [] hp [] [] rfl
  simpa using h

/-- Join parts with a single-character separator (`n` separators for
`n + 1` parts, none leading or trailing). -/
def joinSep (c : Char) : List (List Char) → List Char
  | [] => []
  | [p] => p
  | p :: q :: r => p ++ c :: joinSep c (q :: r)

/-- Splitting inverts joining when no part contains the separator. -/
theorem splitOnChar_joinSep (c : Char) (parts : List (List Char))
    (hne : parts ≠ []) (h : ∀ p ∈ parts, c ∉ p) :
    splitOnChar c (joinSep c parts) = parts := by
  induction parts with
  | nil => exact absurd rfl hne
  | cons p rest ih =>
    cases rest with
    | nil => exact splitOnChar_no_sep c p (h p (List.mem_cons_self p []))
    | cons q r =>
      have hrest := ih (by simp) (fun x hx => h x (List.mem_cons_of_mem _ hx))
      have hp : c ∉ p := h p (List.mem_cons_self p _)
      have hsep : splitOnChar c (c :: joinSep c (q :: r)) = [] :: (q :: r) := by
        rw [splitOnChar_sep, hrest]
      have happ := splitOnChar_append c p (c :: joinSep c (q :: r)) hp [] (q :: r) hsep
      simpa [joinSep] using happ

/-- Character data of `String.intercalate.go`. -/
theorem intercalate_go_data (s : String) (ss : List String) :
    ∀ acc : String, (String.intercalate.go acc s ss).data =
      acc.data ++ (ss.map (fun a => s.data ++ a.data)).flatten := by
  induction ss with
  | nil => intro acc; simp [String.intercalate.go]
  | cons a as ih => intro acc; simp [String.intercalate.go, ih]

/-- Character data of `String.intercalate` on a nonempty list. -/
theorem intercalate_data_cons (s p : String) (t : List String) :
    (String.intercalate s (p :: t)).data =
      p.data ++ (t.map (fun a => s.data ++ a.data)).flatten := by
  simp [String.intercalate, intercalate_go_data]

/-- `joinSep` in flattened form. -/
theorem joinSep_eq_flatten (c : Char) (p : List Char)
    (rest : List (List Char)) :
    joinSep c (p :: rest) = p ++ (rest.map (fun x => c :: x)).flatten := by
  induction rest generalizing p with
  | nil => simp [joinSep]
  | cons q r ih => simp [joinSep, ih]

/-- `String.intercalate "&"` at the character level is `joinSep '&'`. -/
theorem intercalate_amp_data (p : String) (t : List String) :
    (String.intercalate "&" (p :: t)).data =
      joinSep '&' ((p :: t).map String.data) := by
  rw [intercalate_data_cons, List.map_cons, joinSep_eq_flatten, List.map_map]
  rfl

/-- The character data of `percent_encode` output. -/
theorem percentEncode_data (s : String) :
    (percentEncode s).data = pencBytes (strBytes s) := rfl

/-- The character data of one `key=value` token of the canonical query
string. -/
theorem pair_token_data (l : List (String × String)) (k : String) :
    (percentEncode k ++ "=" ++ percentEncode (lookupValue l k)).data
    = pencBytes (strBytes k) ++ '=' :: pencBytes (strBytes (lookupValue l k)) := by
  rw [String.data_append, String.data_append, percentEncode_data,
    percentEncode_data]
  have h : ("=" : String).data = ['='] := rfl
  rw [h]
  simp

/-- The canonical query string's characters are the `&`-join of the
per-key byte-level tokens. -/
theorem canonicalQueryString_data (l : List (String × String)) (k0 : String)
    (ks : List String) (hks : sortedKeys l = k0 :: ks) :
    (canonicalQueryString l).data =
      joinSep '&' ((sortedKeys l).map
        (fun k => pencBytes (strBytes k) ++
          '=' :: pencBytes (strBytes (lookupValue l k)))) := by
  unfold canonicalQueryString
  rw [hks, List.map_cons, intercalate_amp_data]
  simp only [List.map_cons, List.map_map, Function.comp_def]
  rw [pair_token_data l k0,
    List.map_congr_left (fun k _ => pair_token_data l k)]

/-- Evaluation of the pair parser on a well-formed token. -/
theorem parsePairBytes_eval (k v : List Char) (hk : '=' ∉ k) (hv : '=' ∉ v) :
    parsePairBytes (k ++ '=' :: v) = (pdecBytes k, pdecBytes v) := by
  have hsep : splitOnChar '=' ('=' :: v) = [] :: [v] := by
    rw [splitOnChar_sep, splitOnChar_no_sep _ _ hv]
  have happ := splitOnChar_append '=' k ('=' :: v) hk [] [v] hsep
  rw [List.append_nil] at happ
  unfold parsePairBytes
  rw [happ]

/-- Claim C9: for every nonempty parameter mapping with distinct keys
(every merged request parameter set is such), splitting the canonical
query string on `&` and `=` and percent-decoding each key and value
yields back exactly the original parameter set — as UTF-8 byte
sequences — up to order. -/
theorem canonical_query_string_roundtrip (l : List (String × String))
    (hne : l ≠ []) (hnd : (l.map Prod.fst).Nodup) :
    (parseQueryBytes (canonicalQueryString l)).Perm
      (l.map (fun p => (strBytes p.1, strBytes p.2))) := by
  obtain ⟨k0, ks, hks⟩ : ∃ k0 ks, sortedKeys l = k0 :: ks := by
    cases h : sortedKeys l with
    | nil =>
      exfalso
      have hlen : (sortedKeys l).length = l.length := by
        unfold sortedKeys
        rw [(List.perm_insertionSort (· ≤ ·) _).length_eq, List.length_map]
      rw [h] at hlen
      cases l with
      | nil => exact hne rfl
      | cons a t => simp at hlen
    | cons a b => exact ⟨a, b, rfl⟩
  have hparts_ne : (sortedKeys l).map
      (fun k => pencBytes (strBytes k) ++
        '=' :: pencBytes (strBytes (lookupValue l k))) ≠ [] := by
    rw [hks]; simp
  have hchar : ∀ p ∈ (sortedKeys l).map
      (fun k => pencBytes (strBytes k) ++
        '=' :: pencBytes (strBytes (lookupValue l k))), '&' ∉ p := by
    intro p hp hmem
    rcases List.mem_map.mp hp with ⟨k, _, rfl⟩
    rcases List.mem_append.mp hmem with hin | hin
    · exact (pencBytes_no_sep _ (strBytes_lt k) _ hin).1 rfl
    · rcases List.mem_cons.mp hin with heq | hin'
      · exact absurd heq (by decide)
      · exact (pencBytes_no_sep _ (strBytes_lt _) _ hin').1 rfl
  unfold parseQueryBytes
  rw [canonicalQueryString_data l k0 ks hks,
    splitOnChar_joinSep '&' _ hparts_ne hchar, List.map_map]
  have hmapeq : (sortedKeys l).map (parsePairBytes ∘
      (fun k => pencBytes (strBytes k) ++
        '=' :: pencBytes (strBytes (lookupValue l k)))) =
      (sortedKeys l).map
        (fun k => (strBytes k, strBytes (lookupValue l k))) := by
    apply List.map_congr_left
    intro k _
    have hkfree : '=' ∉ pencBytes (strBytes k) :=
      fun hmem => (pencBytes_no_sep _ (strBytes_lt k) _ hmem).2 rfl
    have hvfree : '=' ∉ pencBytes (strBytes (lookupValue l k)) :=
      fun hmem => (pencBytes_no_sep _ (strBytes_lt _) _ hmem).2 rfl
    show parsePairBytes _ = _
    rw [parsePairBytes_eval _ _ hkfree hvfree,
      pdecBytes_pencBytes _ (strBytes_lt k),
      pdecBytes_pencBytes _ (strBytes_lt _)]
  rw [hmapeq]
  have hperm1 : (sortedKeys l).Perm (l.map Prod.fst) := by
    unfold sortedKeys
    exact List.perm_insertionSort (· ≤ ·) _
  have hperm2 := hperm1.map
    (fun k => (strBytes k, strBytes (lookupValue l k)))
  have hfinal : (l.map Prod.fst).map
      (fun k => (strBytes k, strBytes (lookupValue l k))) =
      l.map (fun p => (strBytes p.1, strBytes p.2)) := by
    rw [List.map_map]
    exact List.map_congr_left
      (fun p hp => by simp [Function.comp, lookupValue_mem hnd hp])
  exact hfinal ▸ hperm2

/-- Closed witness for `canonical_query_string_roundtrip`: a two-entry
map given out of order. -/
theorem canonical_query_string_roundtrip_witness :
    (parseQueryBytes (canonicalQueryString [("b", "2"), ("a", "1")])).Perm
      ([("b", "2"), ("a", "1")].map
        (fun p => (strBytes p.1, strBytes p.2))) :=
  canonical_query_string_roundtrip [("b", "2"), ("a", "1")]
    (by decide) (by decide)

end AliyunDnsVerify
